import Mathlib

/-!
# Verification of the gparedis typed key-value repository adapter

Shallow embedding of the `gparedis` Go package: a typed repository adapter
over a Redis-like key-value store.  Go functions from `repository.go` and
the provider file are translated into executable Lean definitions; the
external store commands (GET/SET/DEL/PERSIST/TTL/MSET/KEYS) are modelled
with their documented Redis semantics, since the store client itself is an
external collaborator of the package.

Machine integers are modelled as `Int`/`Nat` (no value in range of concern
approaches overflow), byte slices as `String`, and Go `error` values as an
inductive type distinguishing the store's not-found sentinel (`redis.Nil`),
already-translated persistence errors (`gpa.GPAError`), and any other error.
-/

namespace Gparedis

/-- The closed GPA persistence-error taxonomy
(`gpa.ErrorTypeNotFound`, …). -/
inductive ErrorType where
  | notFound
  | serialization
  | validation
  | database
  | unsupported
deriving Repr, DecidableEq

/-- A Go `error` value as seen by this package: `redisNil` is the store's
key-not-found sentinel `redis.Nil`; `gpaErr ty msg cause` is a
`gpa.GPAError` with its kind, message and optional wrapped cause;
`other msg` is any other error (network faults, `json` errors, hook
errors, …). -/
inductive GoError where
  | redisNil
  | gpaErr (ty : ErrorType) (msg : String) (cause : Option GoError)
  | other (msg : String)

/-- `convertRedisError` from `repository.go`: translates a raw store error
(`Option GoError`, `none` = Go `nil`) into a persistence error.  Mirrors
the source's check order: nil, then the `redis.Nil` sentinel, then the
`gpa.GPAError` pass-through, then the catch-all Database wrap. -/
def convertRedisError : Option GoError → Option GoError
  | none => none
  | some GoError.redisNil =>
      some (GoError.gpaErr ErrorType.notFound "key not found" (some GoError.redisNil))
  | some (GoError.gpaErr ty msg cause) => some (GoError.gpaErr ty msg cause)
  | some (GoError.other msg) =>
      some (GoError.gpaErr ErrorType.database "redis error" (some (GoError.other msg)))

/-- The kind (error type) of a translated error, if it is a `gpa.GPAError`. -/
def errKind : Option GoError → Option ErrorType
  | some (GoError.gpaErr ty _ _) => some ty
  | _ => none

/-- The Go check `gpaErr, ok := err.(gpa.GPAError); ok && gpaErr.Type ==
gpa.ErrorTypeNotFound` used by `DeleteKey`. -/
def isGpaNotFound : GoError → Bool
  | GoError.gpaErr ErrorType.notFound _ _ => true
  | _ => false

/-!
## Store model

One Redis database: a finite map from full keys to entries.  An entry is
the stored byte blob plus the key's expiration state (`none` = persistent,
`some t` = expires in `t` time units, `t > 0`).  Modelled as an
association list without duplicate keys in the reachable states; lookup
takes the first binding.  The store commands below follow the documented
Redis semantics of GET/SET/DEL/PERSIST/TTL/MSET.
-/

/-- A stored value: the encoded byte blob and the remaining TTL
(`none` = persistent key). -/
structure Entry where
  data : String
  ttl : Option Int
deriving Repr, DecidableEq

/-- The store state: full key ↦ entry, as an association list. -/
def Store := List (String × Entry)

instance : DecidableEq Store := by unfold Store; infer_instance

/-- Redis GET / EXISTS: first binding of the key, if any. -/
def storeLookup (s : Store) (k : String) : Option Entry :=
  (List.find? (fun p => p.1 == k) s).map (fun p => p.2)

/-- Redis DEL: drop every binding of the key. -/
def storeDel (s : Store) (k : String) : Store :=
  List.filter (fun p => p.1 != k) s

/-- Redis SET with an expiration argument, per the spec's boundary contract:
a TTL > 0 sets the expiration, a TTL ≤ 0 writes a persistent key. -/
def storeSet (s : Store) (k : String) (data : String) (ttl : Int) : Store :=
  (k, ⟨data, if ttl > 0 then some ttl else none⟩) :: storeDel s k

/-- Redis PERSIST: returns `true` (1) iff the key existed and had a
timeout, which is then removed; returns `false` (0) when the key is absent
or already persistent. -/
def storePersist (s : Store) (k : String) : Store × Bool :=
  match storeLookup s k with
  | none => (s, false)
  | some e =>
    match e.ttl with
    | none => (s, false)
    | some _ => ((k, ⟨e.data, none⟩) :: storeDel s k, true)

/-- Redis TTL: −2 for an absent key, −1 for a persistent key, otherwise
the remaining time to live. -/
def storeTTL (s : Store) (k : String) : Int :=
  match storeLookup s k with
  | none => -2
  | some e =>
    match e.ttl with
    | none => -1
    | some t => t

/-- Redis MSET: one multi-set call; each pair is written as a plain SET
(persistent, since MSET carries no expiration). -/
def storeMSet (s : Store) (ps : List (String × String)) : Store :=
  List.foldl (fun st p => storeSet st p.1 p.2 0) s ps

/-!
## The typed repository

`Repository[T]` binds a key-space namespace (`keyPrefix` in the source) and
a value type `T`.  The Go type parameter `T` is modelled by a Lean type `V`
together with an `EntityModel V` describing exactly what the repository
code can observe about `T`: its JSON encoding/decoding (`json.Marshal` /
`json.Unmarshal`, which may fail) and which optional lifecycle hooks the
type implements (the Go `any(entity).(gpa.XxxHook)` type assertions).  A
hook is `none` when `T` does not implement the interface; an implemented
hook returns `some msg` when it fails with an error. -/
structure EntityModel (V : Type) where
  encode : V → Option String
  decode : String → Option V
  beforeCreate : Option (V → Option String)
  afterCreate : Option (V → Option String)
  afterFind : Option (V → Option String)
  beforeDelete : Option (V → Option String)
  afterDelete : Option (V → Option String)

/-- `buildKey` from `repository.go`: prepend the namespace unless empty. -/
def buildKey (pfx key : String) : String :=
  if pfx = "" then key else pfx ++ key

/-- `Get` from `repository.go`: read the full key; the store's `redis.Nil`
becomes a NotFound `gpa.GPAError` built at the call site; undecodable bytes
become a Serialization error; the after-find hook runs but its error is
swallowed, so it cannot change the result. -/
def RGet {V : Type} (em : EntityModel V) (pfx : String) (s : Store)
    (key : String) : Except GoError V :=
  match storeLookup s (buildKey pfx key) with
  | none =>
      Except.error (GoError.gpaErr ErrorType.notFound ("key not found: " ++ key) none)
  | some e =>
    match em.decode e.data with
    | none =>
        Except.error (GoError.gpaErr ErrorType.serialization
          "failed to deserialize value" (some (GoError.other "json: unmarshal")))
    | some v => Except.ok v

/-- The Go pattern `if hook, ok := any(v).(gpa.XxxHook); ok { hook.Xxx(ctx) }`:
run the optional hook; the result is `some msg` exactly when the type
implements the hook and it returns an error. -/
def runOptHook {V : Type} (h : Option (V → Option String)) (v : V) : Option String :=
  match h with
  | some hook => hook v
  | none => none

/-- Result of one `DeleteKey` call: the returned error, the store
afterwards, and whether a DEL command was issued. -/
structure DeleteOutcome where
  err : Option GoError
  store : Store
  delIssued : Bool

/-- `DeleteKey` from `repository.go`: read the entity first; a NotFound
read returns success immediately (nothing to delete); any other read error
leaves the entity nil but still proceeds to DEL, skipping both hooks; with
an entity in hand, a failing before-delete hook aborts with a Validation
error before DEL, otherwise DEL is issued and the after-delete hook's
error is swallowed. -/
def RDeleteKey {V : Type} (em : EntityModel V) (pfx : String) (s : Store)
    (key : String) : DeleteOutcome :=
  match RGet em pfx s key with
  | Except.error e =>
    if isGpaNotFound e then ⟨none, s, false⟩
    else ⟨none, storeDel s (buildKey pfx key), true⟩
  | Except.ok v =>
    match runOptHook em.beforeDelete v with
    | some msg =>
        ⟨some (GoError.gpaErr ErrorType.validation "before delete hook failed"
          (some (GoError.other msg))), s, false⟩
    | none => ⟨none, storeDel s (buildKey pfx key), true⟩

/-- Result of one `Set`/`SetWithTTL` call: returned error and the store
afterwards. -/
structure SetOutcome where
  err : Option GoError
  store : Store

/-- `SetWithTTL` from `repository.go`: the before-create hook can abort
with a Validation error; `json.Marshal` failure is a Serialization error
raised before any store write; otherwise one SET with the supplied TTL is
issued and the after-create hook's error is swallowed. -/
def RSetWithTTL {V : Type} (em : EntityModel V) (pfx : String) (s : Store)
    (key : String) (v : V) (ttl : Int) : SetOutcome :=
  match runOptHook em.beforeCreate v with
  | some msg =>
      ⟨some (GoError.gpaErr ErrorType.validation "before create hook failed"
        (some (GoError.other msg))), s⟩
  | none =>
    match em.encode v with
    | none =>
        ⟨some (GoError.gpaErr ErrorType.serialization "failed to serialize value"
          (some (GoError.other "json: marshal"))), s⟩
    | some data => ⟨none, storeSet s (buildKey pfx key) data ttl⟩

/-- `Set` from `repository.go`: delegates to `SetWithTTL` with TTL 0. -/
def RSet {V : Type} (em : EntityModel V) (pfx : String) (s : Store)
    (key : String) (v : V) : SetOutcome :=
  RSetWithTTL em pfx s key v 0

/-- The encoding loop of `MSet`: encode each value in order, building the
list of prefixed key/blob pairs; the first `json.Marshal` failure aborts
with a Serialization error. -/
def msetEncode {V : Type} (em : EntityModel V) (pfx : String) :
    List (String × V) → Except GoError (List (String × String))
  | [] => Except.ok []
  | p :: rest =>
    match em.encode p.2 with
    | none =>
        Except.error (GoError.gpaErr ErrorType.serialization
          "failed to serialize value" (some (GoError.other "json: marshal")))
    | some data =>
      match msetEncode em pfx rest with
      | Except.error e => Except.error e
      | Except.ok ps => Except.ok ((buildKey pfx p.1, data) :: ps)

/-- Result of one `MSet` call: returned error, store afterwards, and
whether the multi-set store call was issued. -/
structure MSetOutcome where
  err : Option GoError
  store : Store
  callIssued : Bool

/-- `MSet` from `repository.go`: empty input returns immediately; all
values are encoded before any store interaction; an encoding failure
returns a Serialization error with no store call; otherwise one MSET over
all prefixed pairs is issued. -/
def RMSet {V : Type} (em : EntityModel V) (pfx : String) (s : Store)
    (pairs : List (String × V)) : MSetOutcome :=
  if pairs.length = 0 then ⟨none, s, false⟩
  else
    match msetEncode em pfx pairs with
    | Except.error e => ⟨some e, s, false⟩
    | Except.ok ps => ⟨none, storeMSet s ps, true⟩

/-- `RemoveTTL` from `repository.go`: issue PERSIST on the full key; when
PERSIST reports `false`, return the NotFound error built by
`gpa.NewError(gpa.ErrorTypeNotFound, "key not found")`. -/
def RRemoveTTL (pfx : String) (s : Store) (key : String) :
    Option GoError × Store :=
  let r := storePersist s (buildKey pfx key)
  if r.2 then (none, r.1)
  else (some (GoError.gpaErr ErrorType.notFound "key not found" none), r.1)

/-- `TTL` from `repository.go`: return the store's TTL reply for the full
key (the store call itself cannot fail in this model). -/
def RTTL (pfx : String) (s : Store) (key : String) : Except GoError Int :=
  Except.ok (storeTTL s (buildKey pfx key))

/-!
## Pattern operations

Redis KEYS/SCAN match a glob pattern over the stored keys.  Per the spec's
boundary description the glob dialect here is `*` (any sequence) and `?`
(any single character); other characters match literally. -/

/-- Glob matching of a pattern against a key, both as character lists,
with a fuel argument for structural recursion (every recursive call
shrinks `p.length + s.length`, so `p.length + s.length + 1` fuel is always
enough). -/
def globMatchF : Nat → List Char → List Char → Bool
  | 0, _, _ => false
  | _ + 1, [], [] => true
  | fuel + 1, '*' :: ps, [] => globMatchF fuel ps []
  | _ + 1, [], _ :: _ => false
  | fuel + 1, '*' :: ps, c :: cs =>
      globMatchF fuel ps (c :: cs) || globMatchF fuel ('*' :: ps) cs
  | _ + 1, '?' :: _, [] => false
  | fuel + 1, '?' :: ps, _ :: cs => globMatchF fuel ps cs
  | _ + 1, _ :: _, [] => false
  | fuel + 1, q :: ps, c :: cs => (q == c) && globMatchF fuel ps cs

/-- Glob matching of a pattern against a key. -/
def globMatch (p s : List Char) : Bool :=
  globMatchF (p.length + s.length + 1) p s

/-- The prefix-removal loop shared by `Keys` and `Scan` in
`repository.go`: when the namespace is non-empty, each returned key that
is strictly longer than the namespace and starts with it is replaced by
its remainder; all other keys pass through unchanged. -/
def stripKeys (pfx : String) (keys : List String) : List String :=
  if pfx = "" then keys
  else keys.map (fun k =>
    if k.length > pfx.length && (k.take pfx.length == pfx)
    then k.drop pfx.length else k)

/-- The store-side reply to KEYS (and, collapsed to one batch, SCAN): the
stored keys matching `buildKey pfx pattern`. -/
def matchedKeys (pfx pattern : String) (s : Store) : List String :=
  (s.map Prod.fst).filter (fun k => globMatch (buildKey pfx pattern).toList k.toList)

/-- `Keys` from `repository.go`: prefix the pattern, ask the store, strip
the namespace from the replies. -/
def RKeys (pfx pattern : String) (s : Store) : List String :=
  stripKeys pfx (matchedKeys pfx pattern s)

/-- `Scan` from `repository.go`, with the store's cursor iteration
collapsed into a single full batch ending with cursor 0: same
post-processing as `Keys`. -/
def RScan (pfx pattern : String) (s : Store) (_cursor : Nat) (_count : Int) :
    List String × Nat :=
  (stripKeys pfx (matchedKeys pfx pattern s), 0)

/-!
## Provider construction

`buildRedisOptions` and `applyRedisOptions` from the provider source file.
Go's `strconv.Atoi` is modelled by `goAtoi` (optional sign followed by
decimal digits; anything else fails); `strings.Split` is `String.splitOn`,
which has the same semantics; `time.ParseDuration` is an external parser
and is a parameter `pd` of the options application. -/

/-- Accumulate decimal digits; `none` on the first non-digit. -/
def digitsVal : List Char → Nat → Option Nat
  | [], acc => some acc
  | c :: cs, acc =>
      if c.isDigit then digitsVal cs (acc * 10 + (c.toNat - 48)) else none

/-- Go `strconv.Atoi`: optional `+`/`-` sign then one or more decimal
digits; every other string is an error (`none`). -/
def goAtoi (s : String) : Option Int :=
  match s.toList with
  | [] => none
  | '+' :: rest =>
      if rest = [] then none else (digitsVal rest 0).map (fun n => (n : Int))
  | '-' :: rest =>
      if rest = [] then none else (digitsVal rest 0).map (fun n => -(n : Int))
  | cs => (digitsVal cs 0).map (fun n => (n : Int))

/-- Split a character list at every occurrence of `sep`. -/
def splitChar (sep : Char) : List Char → List (List Char)
  | [] => [[]]
  | c :: cs =>
    let rest := splitChar sep cs
    if c = sep then [] :: rest
    else
      match rest with
      | [] => [[c]]
      | r :: rs => (c :: r) :: rs

/-- Go `strings.Split` with a one-character separator: split at every
occurrence; `Split("", sep) = [""]`, and a trailing separator yields a
trailing empty part — the same semantics as `splitChar` on the
characters. -/
def goSplit (s : String) (sep : Char) : List String :=
  (splitChar sep s.toList).map List.asString

/-- Go `strings.HasPrefix`. -/
def goHasPfx (s pre : String) : Bool :=
  s.take pre.length == pre

/-- Go `strings.TrimPrefix` (removes the leading occurrence if present). -/
def goTrimPfx (s pre : String) : String :=
  if goHasPfx s pre then s.drop pre.length else s

/-- The `gpa.Config` fields read by `buildRedisOptions`. -/
structure GoConfig where
  connectionURL : String := ""
  host : String := ""
  port : Int := 0
  username : String := ""
  password : String := ""
  database : String := ""
  maxOpenConns : Int := 0
  maxIdleConns : Int := 0
deriving Repr, DecidableEq

/-- The `redis.Options` fields written by this package (zero values as in
Go; durations as `Int` nanosecond counts). -/
structure RedisOptions where
  addr : String := ""
  username : String := ""
  password : String := ""
  db : Int := 0
  poolSize : Int := 0
  minIdleConns : Int := 0
  maxRetries : Int := 0
  dialTimeout : Int := 0
  readTimeout : Int := 0
  writeTimeout : Int := 0
  poolTimeout : Int := 0
deriving Repr, DecidableEq

/-- The trailing pool-settings block of `buildRedisOptions`:
`MaxOpenConns`/`MaxIdleConns` are applied only when positive. -/
def applyPool (config : GoConfig) (opts : RedisOptions) : RedisOptions :=
  let o1 := if config.maxOpenConns > 0
    then { opts with poolSize := config.maxOpenConns } else opts
  if config.maxIdleConns > 0
    then { o1 with minIdleConns := config.maxIdleConns } else o1

/-- `buildRedisOptions` from the provider source: with a non-empty
`ConnectionURL`, strip an optional `redis://` scheme, split an optional
`auth@` part (user:pass or bare password), split an optional `/db` part
(a non-numeric or empty db index is silently skipped), and use the
remaining host part as the address when non-empty — this branch never
returns an error.  With an empty `ConnectionURL`, build `host:port` with
defaults `localhost`/`6379`; a non-empty, non-numeric `Database` string is
a fatal error. -/
def buildRedisOptions (config : GoConfig) : Except String RedisOptions :=
  if config.connectionURL ≠ "" then
    let opts0 : RedisOptions := { addr := "localhost:6379", db := 0 }
    let url := goTrimPfx config.connectionURL "redis://"
    let parts := goSplit url '@'
    let step1 : RedisOptions × String :=
      if parts.length = 2 then
        let authPart := parts.getD 0 ""
        let hp := parts.getD 1 ""
        if authPart.toList.contains ':' then
          let authParts := goSplit authPart ':'
          ({ opts0 with username := authParts.getD 0 "",
                        password := authParts.getD 1 "" }, hp)
        else ({ opts0 with password := authPart }, hp)
      else (opts0, parts.getD 0 "")
    let step2 : RedisOptions × String :=
      if step1.2.toList.contains '/' then
        let hostDbParts := goSplit step1.2 '/'
        let hp := hostDbParts.getD 0 ""
        if hostDbParts.length > 1 ∧ hostDbParts.getD 1 "" ≠ "" then
          match goAtoi (hostDbParts.getD 1 "") with
          | some db => ({ step1.1 with db := db }, hp)
          | none => (step1.1, hp)
        else (step1.1, hp)
      else step1
    let opts3 := if step2.2 ≠ "" then { step2.1 with addr := step2.2 } else step2.1
    Except.ok (applyPool config opts3)
  else
    let host := if config.host = "" then "localhost" else config.host
    let port := if config.port = 0 then (6379 : Int) else config.port
    let optsA : RedisOptions :=
      { addr := host ++ ":" ++ toString port,
        username := config.username, password := config.password }
    if config.database ≠ "" then
      match goAtoi config.database with
      | some db => Except.ok (applyPool config { optsA with db := db })
      | none => Except.error ("invalid database number: " ++ config.database)
    else Except.ok (applyPool config optsA)

/-- A concrete configuration with a full connection URL, used to witness
URL precedence. -/
def cfgURL : GoConfig :=
  { connectionURL := "redis://u:p@h:1/2" }

/-- A value in the loosely-typed options bag, as discriminated by the Go
type assertions in `applyRedisOptions`: an `int`, a `string`, a native
`time.Duration`, or any other type. -/
inductive GoValue where
  | intV (n : Int)
  | strV (s : String)
  | durV (d : Int)
  | otherV
deriving Repr, DecidableEq

/-- The options bag `map[string]interface{}` under the `"redis"` key. -/
abbrev Bag := List (String × GoValue)

/-- Map lookup in the options bag. -/
def bagGet : Bag → String → Option GoValue
  | [], _ => none
  | p :: rest, k => if p.1 == k then some p.2 else bagGet rest k

/-- One duration option of `applyRedisOptions`: accept a native duration,
or a string that `time.ParseDuration` (the parameter `pd`) accepts;
anything else leaves the options unchanged. -/
def applyDurOpt (pd : String → Option Int) (bag : Bag) (key : String)
    (set : RedisOptions → Int → RedisOptions) (opts : RedisOptions) :
    RedisOptions :=
  match bagGet bag key with
  | some (GoValue.durV d) => set opts d
  | some (GoValue.strV s) =>
    match pd s with
    | some d => set opts d
    | none => opts
  | _ => opts

/-- The `max_retries` block of `applyRedisOptions`: accept any `int`. -/
def applyMaxRetries (bag : Bag) (opts : RedisOptions) : RedisOptions :=
  match bagGet bag "max_retries" with
  | some (GoValue.intV n) => { opts with maxRetries := n }
  | _ => opts

/-- The `pool_size` block of `applyRedisOptions`: accept an `int` > 0. -/
def applyPoolSize (bag : Bag) (opts : RedisOptions) : RedisOptions :=
  match bagGet bag "pool_size" with
  | some (GoValue.intV n) => if n > 0 then { opts with poolSize := n } else opts
  | _ => opts

/-- The `min_idle_conns` block of `applyRedisOptions`: accept an
`int` ≥ 0. -/
def applyMinIdleConns (bag : Bag) (opts : RedisOptions) : RedisOptions :=
  match bagGet bag "min_idle_conns" with
  | some (GoValue.intV n) => if n ≥ 0 then { opts with minIdleConns := n } else opts
  | _ => opts

/-- `applyRedisOptions` from the provider source: seven independent,
optional tuning entries applied in source order; a missing entry, a
wrong-typed value, or an out-of-range value (`pool_size ≤ 0`,
`min_idle_conns < 0`, an unparseable duration string) leaves the
corresponding field untouched.  Total: no error channel exists. -/
def applyRedisOptions (pd : String → Option Int) (opts : RedisOptions)
    (bag : Bag) : RedisOptions :=
  let o1 := applyMaxRetries bag opts
  let o2 := applyPoolSize bag o1
  let o3 := applyMinIdleConns bag o2
  let o4 := applyDurOpt pd bag "dial_timeout"
    (fun o d => { o with dialTimeout := d }) o3
  let o5 := applyDurOpt pd bag "read_timeout"
    (fun o d => { o with readTimeout := d }) o4
  let o6 := applyDurOpt pd bag "write_timeout"
    (fun o d => { o with writeTimeout := d }) o5
  applyDurOpt pd bag "pool_timeout"
    (fun o d => { o with poolTimeout := d }) o6

/-- The value the `max_retries` field ends with: the bag entry when
accepted, the prior value otherwise. -/
def maxRetriesVal (bag : Bag) (old : Int) : Int :=
  match bagGet bag "max_retries" with
  | some (GoValue.intV n) => n
  | _ => old

/-- The value the `pool_size` field ends with. -/
def poolSizeVal (bag : Bag) (old : Int) : Int :=
  match bagGet bag "pool_size" with
  | some (GoValue.intV n) => if n > 0 then n else old
  | _ => old

/-- The value the `min_idle_conns` field ends with. -/
def minIdleVal (bag : Bag) (old : Int) : Int :=
  match bagGet bag "min_idle_conns" with
  | some (GoValue.intV n) => if n ≥ 0 then n else old
  | _ => old

/-- The value a duration field ends with: a native duration or a
parseable duration string when present, the prior value otherwise. -/
def durOptVal (pd : String → Option Int) (bag : Bag) (key : String)
    (old : Int) : Int :=
  match bagGet bag key with
  | some (GoValue.durV d) => d
  | some (GoValue.strV s) =>
    match pd s with
    | some d => d
    | none => old
  | _ => old

/-- Which bag entries `applyRedisOptions` accepts (i.e. uses to overwrite
a field); an entry the code silently ignores — wrong key, wrong type, or
out-of-range value — is not accepted. -/
def acceptedOpt (pd : String → Option Int) (key : String) (v : GoValue) : Bool :=
  if key == "max_retries" then
    match v with | GoValue.intV _ => true | _ => false
  else if key == "pool_size" then
    match v with | GoValue.intV n => decide (n > 0) | _ => false
  else if key == "min_idle_conns" then
    match v with | GoValue.intV n => decide (n ≥ 0) | _ => false
  else if key == "dial_timeout" || key == "read_timeout"
      || key == "write_timeout" || key == "pool_timeout" then
    match v with
    | GoValue.durV _ => true
    | GoValue.strV s => (pd s).isSome
    | _ => false
  else false

/-- The options-application phase of `NewProvider`: when a `"redis"`
options bag is present it is applied, otherwise the options pass through;
this phase has no failure path. -/
def newProviderApplyOptions (pd : String → Option Int) (opts : RedisOptions)
    (bag : Option Bag) : Except String RedisOptions :=
  Except.ok (match bag with
    | some b => applyRedisOptions pd opts b
    | none => opts)

/-- A duration parser that accepts nothing — a concrete stand-in for
`time.ParseDuration` on strings it rejects. -/
def pdNone : String → Option Int := fun _ => none

/-- A bag in which every tuning entry is malformed: a wrong-typed
`max_retries`, an out-of-range `pool_size` and `min_idle_conns`, an
unparseable or wrong-typed value for every timeout. -/
def bagMal : Bag :=
  [("max_retries", GoValue.strV "3"),
   ("pool_size", GoValue.intV 0),
   ("min_idle_conns", GoValue.intV (-1)),
   ("dial_timeout", GoValue.strV "notadur"),
   ("read_timeout", GoValue.otherV),
   ("write_timeout", GoValue.intV 5),
   ("pool_timeout", GoValue.strV "bad")]

/-- A sample options value with nonzero tuning fields. -/
def optsSample : RedisOptions :=
  { addr := "localhost:6379", poolSize := 10, minIdleConns := 2,
    maxRetries := 3, dialTimeout := 5, readTimeout := 6, writeTimeout := 7,
    poolTimeout := 8 }

/-- The Serialization error raised by `MSet` when `json.Marshal` fails. -/
def serErr : GoError :=
  GoError.gpaErr ErrorType.serialization "failed to serialize value"
    (some (GoError.other "json: marshal"))

/-- A concrete entity model used to witness the MSet contract: encoding
fails exactly on `0`. -/
def emNat : EntityModel Nat :=
  { encode := fun n => if n = 0 then none else some (toString n)
    decode := fun _ => some 1
    beforeCreate := none
    afterCreate := none
    afterFind := none
    beforeDelete := none
    afterDelete := none }

/-- A concrete entity model whose before-delete hook always fails. -/
def emFailingDelete : EntityModel String :=
  { encode := fun v => some v
    decode := fun d => some d
    beforeCreate := none
    afterCreate := none
    afterFind := none
    beforeDelete := some (fun _ => some "boom")
    afterDelete := none }

/-- A concrete entity model whose decoding always fails (undecodable
stored bytes), with hooks present to show they are skipped. -/
def emUndecodable : EntityModel String :=
  { encode := fun v => some v
    decode := fun _ => none
    beforeCreate := none
    afterCreate := none
    afterFind := none
    beforeDelete := some (fun _ => some "would abort")
    afterDelete := some (fun _ => some "would log") }

/-- A concrete entity model encoding strings as themselves. -/
def emStr : EntityModel String :=
  { encode := fun v => some v
    decode := fun d => some d
    beforeCreate := none
    afterCreate := none
    afterFind := none
    beforeDelete := none
    afterDelete := none }

/-- The per-key post-processing step of `Keys`/`Scan`: strip the
namespace from one returned key exactly when it is strictly longer than
the namespace and starts with it. -/
def stripOne (pfx k : String) : String :=
  if pfx = "" then k
  else if k.length > pfx.length && (k.take pfx.length == pfx)
  then k.drop pfx.length else k

/-!
## Theorems
-/

theorem storeLookup_storeDel_self (s : Store) (k : String) :
    storeLookup (storeDel s k) k = none := by
  induction s with
  | nil => rfl
  | cons hd tl ih =>
    by_cases h : hd.1 = k
    · simp [storeDel, storeLookup, h] at ih ⊢
    · simp [storeDel, storeLookup, h] at ih ⊢

theorem storeLookup_storeSet_self (s : Store) (k data : String) (ttl : Int) :
    storeLookup (storeSet s k data ttl) k =
      some ⟨data, if ttl > 0 then some ttl else none⟩ := by
  simp [storeSet, storeLookup]

theorem msetEncode_error_of_fail {V : Type} (em : EntityModel V) (pfx : String) :
    ∀ pairs : List (String × V), (∃ p ∈ pairs, em.encode p.2 = none) →
      msetEncode em pfx pairs = Except.error serErr := by
  intro pairs
  induction pairs with
  | nil => intro h; simp at h
  | cons p rest ih =>
    intro h
    cases henc : em.encode p.2 with
    | none => simp [msetEncode, henc, serErr]
    | some data =>
      have hrest : ∃ q ∈ rest, em.encode q.2 = none := by
        rcases h with ⟨q, hq, hqe⟩
        rcases List.mem_cons.mp hq with h1 | h1
        · exfalso; rw [h1] at hqe; rw [hqe] at henc; exact Option.noConfusion henc
        · exact ⟨q, h1, hqe⟩
      simp [msetEncode, henc, ih hrest]

theorem msetEncode_ok_of_all {V : Type} (em : EntityModel V) (pfx : String) :
    ∀ pairs : List (String × V), (∀ p ∈ pairs, (em.encode p.2).isSome) →
      msetEncode em pfx pairs =
        Except.ok (pairs.map (fun p => (buildKey pfx p.1, (em.encode p.2).getD ""))) := by
  intro pairs
  induction pairs with
  | nil => intro _; rfl
  | cons p rest ih =>
    intro h
    have hp : (em.encode p.2).isSome := h p (List.mem_cons_self p rest)
    rcases Option.isSome_iff_exists.mp hp with ⟨data, hdata⟩
    have hrest := ih (fun q hq => h q (List.mem_cons_of_mem p hq))
    simp [msetEncode, hdata, hrest]

/-- C2: `MSet` encodes every value before issuing any store write; an
encoding failure yields a Serialization-kind error with no store call and
an unchanged store; otherwise all prefixed pairs go out in one multi-set
call; the empty map is a no-op success with no store call. -/
theorem RMSet_contract {V : Type} (em : EntityModel V) (pfx : String) (s : Store)
    (pairs : List (String × V)) :
    RMSet em pfx s [] = ⟨none, s, false⟩
    ∧ ((∃ p ∈ pairs, em.encode p.2 = none) →
        RMSet em pfx s pairs = ⟨some serErr, s, false⟩
        ∧ errKind (some serErr) = some ErrorType.serialization)
    ∧ ((∀ p ∈ pairs, (em.encode p.2).isSome) → pairs ≠ [] →
        RMSet em pfx s pairs =
          ⟨none,
           storeMSet s (pairs.map (fun p => (buildKey pfx p.1, (em.encode p.2).getD ""))),
           true⟩) := by
  refine ⟨rfl, ?_, ?_⟩
  · intro hfail
    have hne : pairs ≠ [] := by
      rcases hfail with ⟨p, hp, _⟩
      intro h; rw [h] at hp; simp at hp
    have hlen : pairs.length ≠ 0 := fun h => hne (List.length_eq_zero.mp h)
    refine ⟨?_, rfl⟩
    simp [RMSet, hlen, msetEncode_error_of_fail em pfx pairs hfail]
  · intro hall hne
    have hlen : pairs.length ≠ 0 := fun h => hne (List.length_eq_zero.mp h)
    simp [RMSet, hlen, msetEncode_ok_of_all em pfx pairs hall]

theorem RMSet_contract_witness :
    (RMSet emNat "p:" [] [] = ⟨none, [], false⟩)
    ∧ (RMSet emNat "p:" [] [("a", 0)] = ⟨some serErr, [], false⟩
        ∧ errKind (some serErr) = some ErrorType.serialization)
    ∧ RMSet emNat "p:" [] [("b", 1)] =
        ⟨none, storeMSet [] [("p:b", "1")], true⟩ := by
  refine ⟨(RMSet_contract emNat "p:" [] []).1,
    (RMSet_contract emNat "p:" [] [("a", 0)]).2.1 ⟨("a", 0), by simp, by simp [emNat]⟩,
    ?_⟩
  have h := (RMSet_contract emNat "p:" [] [("b", 1)]).2.2
    (by intro p hp; simp at hp; rw [hp]; simp [emNat]) (by simp)
  simpa [emNat, buildKey] using h

/-- C5: when the stored value decodes and the decoded entity's
before-delete hook fails, `DeleteKey` returns a Validation-kind error,
issues no DEL, and leaves the key present with its entry unchanged. -/
theorem RDeleteKey_beforeHook_aborts {V : Type} (em : EntityModel V)
    (pfx key : String) (s : Store) (entry : Entry) (v : V)
    (hook : V → Option String) (msg : String)
    (hlook : storeLookup s (buildKey pfx key) = some entry)
    (hdec : em.decode entry.data = some v)
    (hhook : em.beforeDelete = some hook)
    (hfail : hook v = some msg) :
    RDeleteKey em pfx s key =
      ⟨some (GoError.gpaErr ErrorType.validation "before delete hook failed"
        (some (GoError.other msg))), s, false⟩
    ∧ storeLookup (RDeleteKey em pfx s key).store (buildKey pfx key) = some entry := by
  have h1 : RDeleteKey em pfx s key =
      ⟨some (GoError.gpaErr ErrorType.validation "before delete hook failed"
        (some (GoError.other msg))), s, false⟩ := by
    simp [RDeleteKey, RGet, runOptHook, hlook, hdec, hhook, hfail]
  exact ⟨h1, by rw [h1]; exact hlook⟩

theorem RDeleteKey_beforeHook_aborts_witness :
    RDeleteKey emFailingDelete "" [("k", ⟨"v", none⟩)] "k" =
      ⟨some (GoError.gpaErr ErrorType.validation "before delete hook failed"
        (some (GoError.other "boom"))), [("k", ⟨"v", none⟩)], false⟩
    ∧ storeLookup (RDeleteKey emFailingDelete "" [("k", ⟨"v", none⟩)] "k").store
        (buildKey "" "k") = some ⟨"v", none⟩ :=
  RDeleteKey_beforeHook_aborts emFailingDelete "" "k" [("k", ⟨"v", none⟩)]
    ⟨"v", none⟩ "v" (fun _ => some "boom") "boom" rfl rfl rfl rfl

/-- C10: when the initial read inside `DeleteKey` fails with a
non-NotFound error (here: the stored bytes do not decode), the DEL is
still issued, the result is success, and the key is gone afterwards; this
holds for every entity model, i.e. regardless of which hooks the type
implements, since no entity is available to run them on. -/
theorem RDeleteKey_undecodable {V : Type} (em : EntityModel V)
    (pfx key : String) (s : Store) (entry : Entry)
    (hlook : storeLookup s (buildKey pfx key) = some entry)
    (hdec : em.decode entry.data = none) :
    RDeleteKey em pfx s key = ⟨none, storeDel s (buildKey pfx key), true⟩
    ∧ storeLookup (RDeleteKey em pfx s key).store (buildKey pfx key) = none := by
  have h1 : RDeleteKey em pfx s key = ⟨none, storeDel s (buildKey pfx key), true⟩ := by
    simp [RDeleteKey, RGet, hlook, hdec, isGpaNotFound]
  exact ⟨h1, by rw [h1]; exact storeLookup_storeDel_self s (buildKey pfx key)⟩

theorem RDeleteKey_undecodable_witness :
    RDeleteKey emUndecodable "" [("k", ⟨"not json", none⟩)] "k" =
      ⟨none, storeDel [("k", ⟨"not json", none⟩)] "k", true⟩
    ∧ storeLookup (RDeleteKey emUndecodable "" [("k", ⟨"not json", none⟩)] "k").store
        (buildKey "" "k") = none :=
  RDeleteKey_undecodable emUndecodable "" "k" [("k", ⟨"not json", none⟩)]
    ⟨"not json", none⟩ rfl rfl

/-- C7: `Set` is definitionally `SetWithTTL` with TTL 0; and for every
TTL ≤ 0 (zero or strictly negative) a successful `SetWithTTL` writes the
encoded value as a persistent key: it is present afterwards with no
expiration and the store's TTL reply for it is the −1 sentinel. -/
theorem RSet_ttl_contract {V : Type} (em : EntityModel V) (pfx key : String)
    (s : Store) (v : V) (ttl : Int) :
    RSet em pfx s key v = RSetWithTTL em pfx s key v 0
    ∧ (∀ data, runOptHook em.beforeCreate v = none → em.encode v = some data →
        ttl ≤ 0 →
        RSetWithTTL em pfx s key v ttl =
          ⟨none, storeSet s (buildKey pfx key) data ttl⟩
        ∧ storeLookup (storeSet s (buildKey pfx key) data ttl) (buildKey pfx key) =
            some ⟨data, none⟩
        ∧ storeTTL (storeSet s (buildKey pfx key) data ttl) (buildKey pfx key) = -1) := by
  refine ⟨rfl, ?_⟩
  intro data hhook henc httl
  have hnot : ¬ ttl > 0 := not_lt.mpr httl
  refine ⟨by simp [RSetWithTTL, hhook, henc], ?_, ?_⟩
  · rw [storeLookup_storeSet_self]
    simp [hnot]
  · simp [storeTTL, storeLookup_storeSet_self, hnot]

theorem RSet_ttl_contract_witness :
    RSet emStr "p:" [] "k" "val" = RSetWithTTL emStr "p:" [] "k" "val" 0
    ∧ (RSetWithTTL emStr "p:" [] "k" "val" (-5) =
        ⟨none, storeSet [] (buildKey "p:" "k") "val" (-5)⟩
      ∧ storeLookup (storeSet [] (buildKey "p:" "k") "val" (-5)) (buildKey "p:" "k") =
          some ⟨"val", none⟩
      ∧ storeTTL (storeSet [] (buildKey "p:" "k") "val" (-5)) (buildKey "p:" "k") = -1) :=
  ⟨(RSet_ttl_contract emStr "p:" "k" [] "val" (-5)).1,
   (RSet_ttl_contract emStr "p:" "k" [] "val" (-5)).2 "val" rfl rfl (by decide)⟩

/-- C6 counterexample: with an entity type whose before-delete hook always
fails and a present key, the first `DeleteKey` call errors — and so does
the second call, refuting "calling DeleteKey twice in succession on the
same key never errors on the second call". -/
theorem RDeleteKey_twice_counterexample :
    (RDeleteKey emFailingDelete "" [("k", ⟨"v", none⟩)] "k").err.isSome = true
    ∧ (RDeleteKey emFailingDelete ""
        (RDeleteKey emFailingDelete "" [("k", ⟨"v", none⟩)] "k").store "k").err.isSome
        = true :=
  ⟨rfl, rfl⟩

/-- C6 amended: `DeleteKey` on an absent key returns success (nil error,
no DEL issued) rather than NotFound; and whenever a `DeleteKey` call
succeeds, an immediately following `DeleteKey` on the same key also
succeeds.  (The unconditional "second call never errors" fails when a
before-delete hook aborts both calls.) -/
theorem RDeleteKey_idempotent_amended {V : Type} (em : EntityModel V)
    (pfx key : String) (s : Store) :
    (storeLookup s (buildKey pfx key) = none →
      RDeleteKey em pfx s key = ⟨none, s, false⟩)
    ∧ ((RDeleteKey em pfx s key).err = none →
        (RDeleteKey em pfx (RDeleteKey em pfx s key).store key).err = none) := by
  constructor
  · intro hnone
    simp [RDeleteKey, RGet, hnone, isGpaNotFound]
  · intro hok
    cases hlk : storeLookup s (buildKey pfx key) with
    | none =>
      have h1 : RDeleteKey em pfx s key = ⟨none, s, false⟩ := by
        simp [RDeleteKey, RGet, hlk, isGpaNotFound]
      rw [h1]
      simp [RDeleteKey, RGet, hlk, isGpaNotFound]
    | some entry =>
      cases hdec : em.decode entry.data with
      | none =>
        have h1 : RDeleteKey em pfx s key =
            ⟨none, storeDel s (buildKey pfx key), true⟩ := by
          simp [RDeleteKey, RGet, hlk, hdec, isGpaNotFound]
        rw [h1]
        simp [RDeleteKey, RGet, storeLookup_storeDel_self, isGpaNotFound]
      | some v =>
        cases hhk : runOptHook em.beforeDelete v with
        | none =>
          have h1 : RDeleteKey em pfx s key =
              ⟨none, storeDel s (buildKey pfx key), true⟩ := by
            simp [RDeleteKey, RGet, hlk, hdec, hhk]
          rw [h1]
          simp [RDeleteKey, RGet, storeLookup_storeDel_self, isGpaNotFound]
        | some msg =>
          exfalso
          have h1 : (RDeleteKey em pfx s key).err =
              some (GoError.gpaErr ErrorType.validation "before delete hook failed"
                (some (GoError.other msg))) := by
            simp [RDeleteKey, RGet, hlk, hdec, hhk]
          rw [h1] at hok
          exact Option.noConfusion hok

theorem RDeleteKey_idempotent_amended_witness :
    RDeleteKey emStr "p:" [] "missing" = ⟨none, [], false⟩
    ∧ (RDeleteKey emStr "p:"
        (RDeleteKey emStr "p:" [("p:k", ⟨"v", none⟩)] "k").store "k").err = none :=
  ⟨(RDeleteKey_idempotent_amended emStr "p:" "missing" []).1 rfl,
   (RDeleteKey_idempotent_amended emStr "p:" "k" [("p:k", ⟨"v", none⟩)]).2 rfl⟩

/-- C3 counterexample: a key that exists in the store but is persistent
(has no TTL): Redis PERSIST replies 0, so `RemoveTTL` returns a
NotFound-kind error even though the key exists — refuting "fails NotFound
iff the key does not exist / succeeds for every existing key". -/
theorem RRemoveTTL_persistent_key_counterexample :
    storeLookup [("k", ⟨"v", none⟩)] (buildKey "" "k") = some ⟨"v", none⟩
    ∧ errKind (RRemoveTTL "" [("k", ⟨"v", none⟩)] "k").1 = some ErrorType.notFound :=
  ⟨rfl, rfl⟩

/-- C3 amended: `RemoveTTL` fails with a NotFound-kind error iff the key
is absent **or exists without a TTL** (PERSIST replies 0 in both cases);
for every existing key that currently has a TTL it succeeds, makes the
key persistent, and a subsequent `TTL` returns the −1 no-expiration
sentinel. -/
theorem RRemoveTTL_amended (pfx key : String) (s : Store) :
    (storeLookup s (buildKey pfx key) = none →
      RRemoveTTL pfx s key =
        (some (GoError.gpaErr ErrorType.notFound "key not found" none), s))
    ∧ (∀ e, storeLookup s (buildKey pfx key) = some e → e.ttl = none →
      RRemoveTTL pfx s key =
        (some (GoError.gpaErr ErrorType.notFound "key not found" none), s))
    ∧ (∀ e t, storeLookup s (buildKey pfx key) = some e → e.ttl = some t →
      (RRemoveTTL pfx s key).1 = none
      ∧ storeTTL (RRemoveTTL pfx s key).2 (buildKey pfx key) = -1
      ∧ RTTL pfx (RRemoveTTL pfx s key).2 key = Except.ok (-1)) := by
  refine ⟨?_, ?_, ?_⟩
  · intro hnone
    simp [RRemoveTTL, storePersist, hnone]
  · intro e hsome httl
    simp [RRemoveTTL, storePersist, hsome, httl]
  · intro e t hsome httl
    have h1 : RRemoveTTL pfx s key =
        (none, (buildKey pfx key, ⟨e.data, none⟩) :: storeDel s (buildKey pfx key)) := by
      simp [RRemoveTTL, storePersist, hsome, httl]
    rw [h1]
    refine ⟨rfl, ?_, ?_⟩
    · simp [storeTTL, storeLookup]
    · simp [RTTL, storeTTL, storeLookup]

theorem RRemoveTTL_amended_witness :
    RRemoveTTL "" [] "gone" =
      (some (GoError.gpaErr ErrorType.notFound "key not found" none), [])
    ∧ ((RRemoveTTL "" [("k", ⟨"v", some 30⟩)] "k").1 = none
      ∧ storeTTL (RRemoveTTL "" [("k", ⟨"v", some 30⟩)] "k").2 (buildKey "" "k") = -1
      ∧ RTTL "" (RRemoveTTL "" [("k", ⟨"v", some 30⟩)] "k").2 "k" = Except.ok (-1)) :=
  ⟨(RRemoveTTL_amended "" "gone" []).1 rfl,
   (RRemoveTTL_amended "" "k" [("k", ⟨"v", some 30⟩)]).2.2 ⟨"v", some 30⟩ 30 rfl rfl⟩

theorem stripKeys_map (pfx : String) (keys : List String) :
    stripKeys pfx keys = keys.map (stripOne pfx) := by
  by_cases h : pfx = ""
  · subst h
    have hid : stripOne "" = id := by
      funext k; simp [stripOne]
    simp [stripKeys, hid]
  · simp [stripKeys, stripOne, h]

/-- C8 counterexample: with namespace `"user:"`, the stored key
`"user:"` (exactly the namespace) matches the namespaced pattern
`"user:*"`, but `Keys` returns it unchanged as `"user:"`, not as the
empty string the claim requires. -/
theorem RKeys_prefix_equal_counterexample :
    matchedKeys "user:" "*" [("user:", ⟨"d", none⟩), ("user:a", ⟨"d", none⟩)]
      = ["user:", "user:a"]
    ∧ RKeys "user:" "*" [("user:", ⟨"d", none⟩), ("user:a", ⟨"d", none⟩)]
      = ["user:", "a"] := by
  constructor <;> decide

/-- C8 amended: `Keys` and `Scan` both return the store's matched keys
mapped through the same per-key stripping step; that step removes the
namespace from every matched key *strictly longer* than the namespace
that starts with it, and returns every other key — in particular a store
key exactly equal to the namespace — unchanged (not as the empty
string). -/
theorem RKeys_strip_amended (pfx pattern : String) (s : Store) :
    RKeys pfx pattern s = (matchedKeys pfx pattern s).map (stripOne pfx)
    ∧ (∀ cursor count,
        (RScan pfx pattern s cursor count).1 =
          (matchedKeys pfx pattern s).map (stripOne pfx))
    ∧ (∀ k, pfx ≠ "" → pfx.length < k.length → k.take pfx.length = pfx →
        stripOne pfx k = k.drop pfx.length)
    ∧ stripOne pfx pfx = pfx := by
  refine ⟨stripKeys_map pfx _, fun cursor count => stripKeys_map pfx _, ?_, ?_⟩
  · intro k hne hlen htake
    simp [stripOne, hne, hlen, htake]
  · by_cases h : pfx = ""
    · simp [stripOne, h]
    · simp [stripOne, h]

theorem RKeys_strip_amended_witness :
    RKeys "user:" "*" [("user:a", ⟨"d", none⟩)] =
      (matchedKeys "user:" "*" [("user:a", ⟨"d", none⟩)]).map (stripOne "user:")
    ∧ stripOne "user:" "user:abc" = "abc"
    ∧ stripOne "user:" "user:" = "user:" :=
  ⟨(RKeys_strip_amended "user:" "*" [("user:a", ⟨"d", none⟩)]).1,
   by
    have h := (RKeys_strip_amended "user:" "*" []).2.2.1 "user:abc"
      (by decide) (by decide) (by decide)
    simpa using h,
   (RKeys_strip_amended "user:" "*" []).2.2.2⟩

theorem applyPool_addr (cfg : GoConfig) (o : RedisOptions) :
    (applyPool cfg o).addr = o.addr := by
  unfold applyPool
  split <;> split <;> rfl

/-- C4 counterexample: `buildRedisOptions` on the configuration whose
`ConnectionURL` is `"invalid-url"` (the repository's own
`TestInvalidConnectionURL` input) succeeds, silently using the whole
string as the address — refuting "an unparseable ConnectionURL fails
construction with an error": the URL branch has no failure path, and the
eventual `NewProvider` failure comes only from the external connection
ping. -/
theorem buildRedisOptions_invalid_url_counterexample :
    buildRedisOptions { connectionURL := "invalid-url" } =
      Except.ok { addr := "invalid-url" } := by
  rfl

/-- C4 amended: with a non-empty `ConnectionURL` the URL is parsed and the
individual Host/Port/Database fields are ignored, and this branch *always*
succeeds — an unparseable URL is not a construction error (any failure
surfaces only later, at the connection ping); with an empty
`ConnectionURL` the address is built from Host/Port with defaults
`localhost:6379`; and a non-empty, non-numeric `Database` string (with
empty `ConnectionURL`) is a fatal construction error. -/
theorem buildRedisOptions_amended (cfg : GoConfig) :
    (∀ h p d, cfg.connectionURL ≠ "" →
      buildRedisOptions { cfg with host := h, port := p, database := d } =
        buildRedisOptions cfg)
    ∧ (cfg.connectionURL ≠ "" → ∃ o, buildRedisOptions cfg = Except.ok o)
    ∧ (cfg.connectionURL = "" → cfg.host = "" → cfg.port = 0 → cfg.database = "" →
        ∃ o, buildRedisOptions cfg = Except.ok o ∧ o.addr = "localhost:6379")
    ∧ (cfg.connectionURL = "" → cfg.database ≠ "" → goAtoi cfg.database = none →
        buildRedisOptions cfg =
          Except.error ("invalid database number: " ++ cfg.database)) := by
  refine ⟨?_, ?_, ?_, ?_⟩
  · intro h p d hne
    simp [buildRedisOptions, applyPool, hne]
  · intro hne
    simp only [buildRedisOptions, hne, if_pos, ne_eq, not_false_iff]
    exact ⟨_, rfl⟩
  · intro hurl hhost hport hdb
    have hb : buildRedisOptions cfg = Except.ok (applyPool cfg
        { addr := "localhost" ++ ":" ++ toString (6379 : Int),
          username := cfg.username, password := cfg.password }) := by
      simp [buildRedisOptions, hurl, hhost, hport, hdb]
    exact ⟨_, hb, by rw [applyPool_addr]; rfl⟩
  · intro hurl hdb hatoi
    simp [buildRedisOptions, hurl, hdb, hatoi]

theorem buildRedisOptions_amended_witness :
    buildRedisOptions { cfgURL with host := "x", port := 9, database := "zz" } =
      buildRedisOptions cfgURL
    ∧ (∃ o, buildRedisOptions { connectionURL := "invalid-url" } = Except.ok o)
    ∧ (∃ o, buildRedisOptions ({} : GoConfig) = Except.ok o
        ∧ o.addr = "localhost:6379")
    ∧ buildRedisOptions { database := "invalid" } =
        Except.error ("invalid database number: " ++ "invalid") :=
  ⟨(buildRedisOptions_amended cfgURL).1 "x" 9 "zz" (by decide),
   (buildRedisOptions_amended { connectionURL := "invalid-url" }).2.1 (by decide),
   (buildRedisOptions_amended ({} : GoConfig)).2.2.1 rfl rfl rfl rfl,
   (buildRedisOptions_amended { database := "invalid" }).2.2.2 rfl (by decide)
     (by decide)⟩

theorem applyMaxRetries_eq (bag : Bag) (o : RedisOptions) :
    applyMaxRetries bag o = { o with maxRetries := maxRetriesVal bag o.maxRetries } := by
  unfold applyMaxRetries maxRetriesVal
  cases h : bagGet bag "max_retries" with
  | none => simp
  | some v => cases v <;> simp

theorem applyPoolSize_eq (bag : Bag) (o : RedisOptions) :
    applyPoolSize bag o = { o with poolSize := poolSizeVal bag o.poolSize } := by
  unfold applyPoolSize poolSizeVal
  cases h : bagGet bag "pool_size" with
  | none => simp
  | some v =>
    cases v with
    | intV n => by_cases hn : n > 0 <;> simp [hn]
    | strV s => simp
    | durV d => simp
    | otherV => simp

theorem applyMinIdleConns_eq (bag : Bag) (o : RedisOptions) :
    applyMinIdleConns bag o =
      { o with minIdleConns := minIdleVal bag o.minIdleConns } := by
  unfold applyMinIdleConns minIdleVal
  cases h : bagGet bag "min_idle_conns" with
  | none => simp
  | some v =>
    cases v with
    | intV n => by_cases hn : n ≥ 0 <;> simp [hn]
    | strV s => simp
    | durV d => simp
    | otherV => simp

theorem applyDurOpt_dial_eq (pd : String → Option Int) (bag : Bag)
    (key : String) (o : RedisOptions) :
    applyDurOpt pd bag key (fun o d => { o with dialTimeout := d }) o =
      { o with dialTimeout := durOptVal pd bag key o.dialTimeout } := by
  unfold applyDurOpt durOptVal
  cases h : bagGet bag key with
  | none => simp
  | some v =>
    cases v with
    | strV s => cases hs : pd s <;> simp [hs]
    | intV n => simp
    | durV d => simp
    | otherV => simp

theorem applyDurOpt_read_eq (pd : String → Option Int) (bag : Bag)
    (key : String) (o : RedisOptions) :
    applyDurOpt pd bag key (fun o d => { o with readTimeout := d }) o =
      { o with readTimeout := durOptVal pd bag key o.readTimeout } := by
  unfold applyDurOpt durOptVal
  cases h : bagGet bag key with
  | none => simp
  | some v =>
    cases v with
    | strV s => cases hs : pd s <;> simp [hs]
    | intV n => simp
    | durV d => simp
    | otherV => simp

theorem applyDurOpt_write_eq (pd : String → Option Int) (bag : Bag)
    (key : String) (o : RedisOptions) :
    applyDurOpt pd bag key (fun o d => { o with writeTimeout := d }) o =
      { o with writeTimeout := durOptVal pd bag key o.writeTimeout } := by
  unfold applyDurOpt durOptVal
  cases h : bagGet bag key with
  | none => simp
  | some v =>
    cases v with
    | strV s => cases hs : pd s <;> simp [hs]
    | intV n => simp
    | durV d => simp
    | otherV => simp

theorem applyDurOpt_pool_eq (pd : String → Option Int) (bag : Bag)
    (key : String) (o : RedisOptions) :
    applyDurOpt pd bag key (fun o d => { o with poolTimeout := d }) o =
      { o with poolTimeout := durOptVal pd bag key o.poolTimeout } := by
  unfold applyDurOpt durOptVal
  cases h : bagGet bag key with
  | none => simp
  | some v =>
    cases v with
    | strV s => cases hs : pd s <;> simp [hs]
    | intV n => simp
    | durV d => simp
    | otherV => simp

theorem applyRedisOptions_eq (pd : String → Option Int) (opts : RedisOptions)
    (bag : Bag) :
    applyRedisOptions pd opts bag =
      { opts with
        maxRetries := maxRetriesVal bag opts.maxRetries,
        poolSize := poolSizeVal bag opts.poolSize,
        minIdleConns := minIdleVal bag opts.minIdleConns,
        dialTimeout := durOptVal pd bag "dial_timeout" opts.dialTimeout,
        readTimeout := durOptVal pd bag "read_timeout" opts.readTimeout,
        writeTimeout := durOptVal pd bag "write_timeout" opts.writeTimeout,
        poolTimeout := durOptVal pd bag "pool_timeout" opts.poolTimeout } := by
  unfold applyRedisOptions
  simp only [applyMaxRetries_eq, applyPoolSize_eq, applyMinIdleConns_eq,
    applyDurOpt_dial_eq, applyDurOpt_read_eq, applyDurOpt_write_eq,
    applyDurOpt_pool_eq]

/-- Accepted duration keys: the two acceptance shapes `acceptedOpt` takes
on each of the four duration options. -/
theorem acceptedOpt_durKey (pd : String → Option Int) (key : String)
    (hkey : key = "dial_timeout" ∨ key = "read_timeout"
      ∨ key = "write_timeout" ∨ key = "pool_timeout") :
    (∀ d, acceptedOpt pd key (GoValue.durV d) = true)
    ∧ (∀ s, acceptedOpt pd key (GoValue.strV s) = (pd s).isSome) := by
  rcases hkey with h | h | h | h <;> subst h <;>
    exact ⟨fun d => rfl, fun s => rfl⟩

theorem bagGet_mem (bag : Bag) (k : String) (v : GoValue)
    (h : bagGet bag k = some v) : (k, v) ∈ bag := by
  induction bag with
  | nil => simp [bagGet] at h
  | cons p rest ih =>
    by_cases hpk : (p.1 == k) = true
    · have hk : p.1 = k := by simpa using hpk
      have hv : p.2 = v := by
        simp only [bagGet] at h
        rw [if_pos hpk] at h
        exact Option.some.inj h
      have hp : (k, v) = p := by
        cases p
        simp only at hk hv
        rw [hk, hv]
      rw [hp]
      exact List.mem_cons_self _ _
    · have h' : bagGet rest k = some v := by
        simp only [bagGet] at h
        rw [if_neg hpk] at h
        exact h
      exact List.mem_cons_of_mem _ (ih h')

/-- C9: the options bag is applied leniently.  First conjunct: each of
the seven tuning fields ends at the value its own (accepted) entry
dictates and at its prior value otherwise, independently of every other
entry.  Second conjunct: when every entry present in the bag is malformed
(wrong key, wrong type, or out-of-range, i.e. not accepted), the options
come out entirely unchanged.  Third conjunct: the options-application
phase of provider construction always succeeds — it has no failure
path. -/
theorem applyRedisOptions_lenient (pd : String → Option Int)
    (opts : RedisOptions) (bag : Bag) :
    applyRedisOptions pd opts bag =
      { opts with
        maxRetries := maxRetriesVal bag opts.maxRetries,
        poolSize := poolSizeVal bag opts.poolSize,
        minIdleConns := minIdleVal bag opts.minIdleConns,
        dialTimeout := durOptVal pd bag "dial_timeout" opts.dialTimeout,
        readTimeout := durOptVal pd bag "read_timeout" opts.readTimeout,
        writeTimeout := durOptVal pd bag "write_timeout" opts.writeTimeout,
        poolTimeout := durOptVal pd bag "pool_timeout" opts.poolTimeout }
    ∧ ((∀ k v, bagGet bag k = some v → acceptedOpt pd k v = false) →
        applyRedisOptions pd opts bag = opts)
    ∧ (∀ b, newProviderApplyOptions pd opts (some b) =
        Except.ok (applyRedisOptions pd opts b)) := by
  refine ⟨applyRedisOptions_eq pd opts bag, ?_, fun b => rfl⟩
  intro hmal
  have hmr : maxRetriesVal bag opts.maxRetries = opts.maxRetries := by
    unfold maxRetriesVal
    cases h : bagGet bag "max_retries" with
    | none => rfl
    | some v =>
      cases v with
      | intV n =>
        exfalso
        have hacc := hmal _ _ h
        rw [show acceptedOpt pd "max_retries" (GoValue.intV n) = true from rfl] at hacc
        exact Bool.noConfusion hacc
      | strV s => rfl
      | durV d => rfl
      | otherV => rfl
  have hps : poolSizeVal bag opts.poolSize = opts.poolSize := by
    unfold poolSizeVal
    cases h : bagGet bag "pool_size" with
    | none => rfl
    | some v =>
      cases v with
      | intV n =>
        have hacc := hmal _ _ h
        rw [show acceptedOpt pd "pool_size" (GoValue.intV n) = decide (n > 0)
          from rfl] at hacc
        have hn : ¬ n > 0 := of_decide_eq_false hacc
        simp [hn]
      | strV s => rfl
      | durV d => rfl
      | otherV => rfl
  have hmi : minIdleVal bag opts.minIdleConns = opts.minIdleConns := by
    unfold minIdleVal
    cases h : bagGet bag "min_idle_conns" with
    | none => rfl
    | some v =>
      cases v with
      | intV n =>
        have hacc := hmal _ _ h
        rw [show acceptedOpt pd "min_idle_conns" (GoValue.intV n) = decide (n ≥ 0)
          from rfl] at hacc
        have hn : ¬ n ≥ 0 := of_decide_eq_false hacc
        simp [hn]
      | strV s => rfl
      | durV d => rfl
      | otherV => rfl
  have hdur : ∀ key, (key = "dial_timeout" ∨ key = "read_timeout"
      ∨ key = "write_timeout" ∨ key = "pool_timeout") →
      ∀ old, durOptVal pd bag key old = old := by
    intro key hkey old
    unfold durOptVal
    cases h : bagGet bag key with
    | none => rfl
    | some v =>
      cases v with
      | durV d =>
        exfalso
        have hacc := hmal _ _ h
        rw [(acceptedOpt_durKey pd key hkey).1 d] at hacc
        exact Bool.noConfusion hacc
      | strV s =>
        have hacc := hmal _ _ h
        rw [(acceptedOpt_durKey pd key hkey).2 s] at hacc
        have hpd : pd s = none := by
          cases hpd' : pd s with
          | none => rfl
          | some d => simp [hpd'] at hacc
        simp [hpd]
      | intV n => rfl
      | otherV => rfl
  rw [applyRedisOptions_eq, hmr, hps, hmi,
    hdur "dial_timeout" (by simp) _, hdur "read_timeout" (by simp) _,
    hdur "write_timeout" (by simp) _, hdur "pool_timeout" (by simp) _]

theorem applyRedisOptions_lenient_witness :
    applyRedisOptions pdNone optsSample bagMal = optsSample
    ∧ newProviderApplyOptions pdNone optsSample (some bagMal) =
        Except.ok (applyRedisOptions pdNone optsSample bagMal) := by
  have hmal : ∀ k v, bagGet bagMal k = some v → acceptedOpt pdNone k v = false := by
    intro k v h
    have hm := bagGet_mem _ _ _ h
    simp [bagMal] at hm
    rcases hm with ⟨hk, hv⟩ | ⟨hk, hv⟩ | ⟨hk, hv⟩ | ⟨hk, hv⟩ | ⟨hk, hv⟩
      | ⟨hk, hv⟩ | ⟨hk, hv⟩ <;> subst hk <;> subst hv <;> rfl
  exact ⟨(applyRedisOptions_lenient pdNone optsSample bagMal).2.1 hmal,
    (applyRedisOptions_lenient pdNone optsSample bagMal).2.2 bagMal⟩

end Gparedis

namespace Gparedis

/-- C1: `convertRedisError` is a pure total function with: nil maps to nil;
the store's `redis.Nil` sentinel maps to a NotFound-kind persistence error;
an existing `gpa.GPAError` is returned unchanged; any other error maps to a
Database-kind error wrapping the original as cause; and the translation is
idempotent. -/
theorem convertRedisError_contract :
    convertRedisError none = none
    ∧ errKind (convertRedisError (some GoError.redisNil)) = some ErrorType.notFound
    ∧ (∀ ty msg cause,
        convertRedisError (some (GoError.gpaErr ty msg cause)) =
          some (GoError.gpaErr ty msg cause))
    ∧ (∀ msg,
        convertRedisError (some (GoError.other msg)) =
          some (GoError.gpaErr ErrorType.database "redis error"
            (some (GoError.other msg))))
    ∧ (∀ e, convertRedisError (convertRedisError e) = convertRedisError e) := by
  refine ⟨rfl, rfl, fun ty msg cause => rfl, fun msg => rfl, fun e => ?_⟩
  match e with
  | none => rfl
  | some GoError.redisNil => rfl
  | some (GoError.gpaErr ty msg cause) => rfl
  | some (GoError.other msg) => rfl

end Gparedis
